import Mathlib

/-!
Verification of the `schnorr::PrivateKey` module
(`rust/tw_keypair/src/schnorr/private.rs`).

The module is a thin wrapper around an external curve engine (the
`secp256k1` / `bitcoin` crates).  Everything that lives in the source file
itself — error mapping, the `no_aux_rand` flag, the branching between the
deterministic and the randomized signing entry points, the two `expect`
calls, the hex-before-bytes parsing chain — is embedded directly from the
source.  The engine primitives (secret-key validation, taproot tweaking,
BIP-340 signing, tagged hashing) are not part of the repository fragment;
they are modelled from the specification's contract for the external
"Curve Engine" collaborator, parametrized where the spec leaves them
abstract (hash values, point parity).
-/

namespace Schnorr

/-- The secp256k1 group order `n` (the scalar field modulus). -/
def secpOrder : Nat :=
  0xFFFFFFFFFFFFFFFFFFFFFFFFFFFFFFFEBAAEDCE6AF48A03BBFD25E8CD0364141

/-- Big-endian interpretation of a byte list as a natural number
(`secp256k1` secret keys are 32 big-endian bytes). -/
def beBytesToNat (l : List Nat) : Nat :=
  l.foldl (fun a b => a * 256 + b) 0

/-- Big-endian encoding of a natural number into `w` bytes (the shape of
`secp256k1::KeyPair::secret_bytes`). -/
def natToBeBytes : Nat → Nat → List Nat
  | 0, _ => []
  | w + 1, v => natToBeBytes w (v / 256) ++ [v % 256]

/-- The error kinds of `KeyPairError` that this module produces
(`InvalidSecretKey`, `InvalidPublicKey`, `InvalidSignature`,
`InvalidSignMessage`). -/
inductive KeyPairError where
  | InvalidSecretKey
  | InvalidPublicKey
  | InvalidSignature
  | InvalidSignMessage
  deriving DecidableEq, Repr

/-- The result of running a fragment of Rust code: a typed success, a typed
error, or a process abort raised by `expect`/`unwrap` (carrying the
`expect` message). -/
inductive Outcome (α : Type) where
  | panics : String → Outcome α
  | err : KeyPairError → Outcome α
  | ok : α → Outcome α
  deriving DecidableEq, Repr

/-- `tw_hash::H256`: exactly 32 bytes. -/
def H256 := { l : List Nat // l.length = 32 ∧ ∀ b ∈ l, b < 256 }

/-- `schnorr::PrivateKey`: a secret scalar held in a `secp256k1::KeyPair`
together with the `no_aux_rand` configuration flag (source lines 14–17). -/
structure PrivateKey where
  scalar : Nat
  no_aux_rand : Bool
  deriving DecidableEq, Repr

/-- Modelled from the spec: `secp256k1::KeyPair::from_seckey_slice`
(external engine).  Succeeds exactly on 32-byte slices whose big-endian
value lies in `[1, n-1]`. -/
def fromSeckeySlice (l : List Nat) : Option Nat :=
  if l.length = 32 then
    if 0 < beBytesToNat l ∧ beBytesToNat l < secpOrder then
      some (beBytesToNat l)
    else none
  else none

/-- `TryFrom<&[u8]> for PrivateKey` (source lines 101–112): validate the
slice through the engine, map any engine failure to `InvalidSecretKey`,
and start with `no_aux_rand = false`. -/
def tryFromBytes (l : List Nat) : Except KeyPairError PrivateKey :=
  match fromSeckeySlice l with
  | some v => .ok ⟨v, false⟩
  | none => .error .InvalidSecretKey

/-- `ToBytesZeroizing::to_zeroizing_vec` (source lines 86–90): export the
engine's `secret_bytes()`, the 32-byte big-endian encoding of the scalar. -/
def to_zeroizing_vec (k : PrivateKey) : List Nat :=
  natToBeBytes 32 k.scalar

theorem natToBeBytes_length (w v : Nat) : (natToBeBytes w v).length = w := by
  induction w generalizing v with
  | zero => rfl
  | succ w ih => simp [natToBeBytes, ih]

theorem beBytesToNat_append_single (l : List Nat) (b : Nat) :
    beBytesToNat (l ++ [b]) = beBytesToNat l * 256 + b := by
  simp [beBytesToNat, List.foldl_append]

theorem natToBeBytes_beBytesToNat (l : List Nat) (hb : ∀ b ∈ l, b < 256) :
    natToBeBytes l.length (beBytesToNat l) = l := by
  induction l using List.reverseRecOn with
  | nil => rfl
  | append_singleton l b ih =>
      have hb' : ∀ x ∈ l, x < 256 := fun x hx => hb x (by simp [hx])
      have hblt : b < 256 := hb b (by simp)
      have hlen : (l ++ [b]).length = l.length + 1 := by simp
      rw [hlen, beBytesToNat_append_single, natToBeBytes]
      have hdiv : (beBytesToNat l * 256 + b) / 256 = beBytesToNat l := by omega
      have hmod : (beBytesToNat l * 256 + b) % 256 = b := by omega
      rw [hdiv, hmod, ih hb']

/-- C1: every 32-byte value whose big-endian integer lies in `[1, n-1]`
parses into a `PrivateKey`, and the zeroizing export of the parsed key
returns exactly the input bytes. -/
theorem c1_parse_export_roundtrip (l : List Nat)
    (hlen : l.length = 32) (hb : ∀ b ∈ l, b < 256)
    (hpos : 0 < beBytesToNat l) (hlt : beBytesToNat l < secpOrder) :
    tryFromBytes l = .ok ⟨beBytesToNat l, false⟩ ∧
      to_zeroizing_vec ⟨beBytesToNat l, false⟩ = l := by
  constructor
  · unfold tryFromBytes fromSeckeySlice
    rw [if_pos hlen, if_pos ⟨hpos, hlt⟩]
  · unfold to_zeroizing_vec
    have := natToBeBytes_beBytesToNat l hb
    rw [hlen] at this
    exact this

/-- Witness for C1 at the concrete key `0x00…03`. -/
theorem c1_parse_export_roundtrip_witness :
    tryFromBytes (List.replicate 31 0 ++ [3]) =
        .ok ⟨beBytesToNat (List.replicate 31 0 ++ [3]), false⟩ ∧
      to_zeroizing_vec ⟨beBytesToNat (List.replicate 31 0 ++ [3]), false⟩ =
        List.replicate 31 0 ++ [3] :=
  c1_parse_export_roundtrip (List.replicate 31 0 ++ [3])
    (by decide) (by decide) (by decide) (by decide)

/-- C2: every byte slice that is not a valid secret key — wrong length, or
a 32-byte value outside `[1, n-1]` — fails with exactly
`InvalidSecretKey`. -/
theorem c2_invalid_bytes_error (l : List Nat)
    (h : ¬(l.length = 32 ∧ 0 < beBytesToNat l ∧ beBytesToNat l < secpOrder)) :
    tryFromBytes l = .error KeyPairError.InvalidSecretKey := by
  unfold tryFromBytes fromSeckeySlice
  by_cases hlen : l.length = 32
  · rw [if_pos hlen]
    have hrange : ¬(0 < beBytesToNat l ∧ beBytesToNat l < secpOrder) := by
      intro hr
      exact h ⟨hlen, hr⟩
    rw [if_neg hrange]
  · rw [if_neg hlen]

/-- Witness for C2 at the all-zero 32-byte slice. -/
theorem c2_invalid_bytes_error_witness :
    tryFromBytes (List.replicate 32 0) = .error KeyPairError.InvalidSecretKey :=
  c2_invalid_bytes_error (List.replicate 32 0) (by decide)

/-- Modelled from the spec: the external Curve Engine collaborator
(`secp256k1`/`bitcoin` crates; scalar/point arithmetic, tagged hashing and
nonce derivation are outside the repository fragment).  `hasOddY s` is the
parity of the y-coordinate of the point `s·G`, `pubX s` its x-coordinate,
`tapTweakHash x root` the `TaggedHash("TapTweak", x ‖ root)` value reduced
into the scalar range, `nonceDet`/`nonceRand` the BIP-340 nonce derivation
without and with auxiliary randomness, and `challenge rx px m` the
`TaggedHash("BIP0340/challenge", rx ‖ px ‖ m)` value. -/
structure CurveEngine where
  hasOddY : Nat → Bool
  pubX : Nat → Nat
  tapTweakHash : Nat → Option Nat → Nat
  nonceDet : Nat → List Nat → Nat
  nonceRand : Nat → List Nat → List Nat → Nat
  challenge : Nat → Nat → List Nat → Nat

/-- `PrivateKey::public` (source lines 20–24): the derived public key,
modelled as the x-coordinate of `scalar·G` paired with the parity of its
y-coordinate (`true` = odd y). -/
def public (E : CurveEngine) (k : PrivateKey) : Nat × Bool :=
  (E.pubX k.scalar, E.hasOddY k.scalar)

/-- Modelled from the spec: `bitcoin::hashes::sha256t::Hash::from_slice`
(external), which succeeds exactly on 32-byte slices. -/
def sha256tFromSlice (l : List Nat) : Option (List Nat) :=
  if l.length = 32 then some l else none

/-- Modelled from the spec (§4.2): the engine's taproot tweak
(`KeyPair::tap_tweak`, external).  Derive the tweak scalar `t` from the
public x-coordinate and the optional merkle root, form
`(scalar + t) mod n`, abort with the engine's `"Tap tweak failed"`
`expect` on the degenerate result `0`, and otherwise negate the new scalar
whenever the resulting point has an odd y-coordinate.  The `no_aux_rand`
configuration is carried over unchanged (source line 41). -/
def tapTweakKey (E : CurveEngine) (k : PrivateKey) (root : Option Nat) :
    Outcome PrivateKey :=
  let t := E.tapTweakHash (E.pubX k.scalar) root
  let s2 := (k.scalar + t) % secpOrder
  if s2 = 0 then Outcome.panics "Tap tweak failed"
  else Outcome.ok ⟨if E.hasOddY s2 then secpOrder - s2 else s2, k.no_aux_rand⟩

/-- `PrivateKey::tweak` (source lines 28–43): convert the optional `H256`
node hash through `sha256t::Hash::from_slice` — whose failure would hit the
`expect("Expected a valid sha256t tweak")` — and hand the key to the
engine's `tap_tweak`. -/
def tweak (E : CurveEngine) (k : PrivateKey) (root : Option H256) :
    Outcome PrivateKey :=
  match root with
  | some h =>
    match sha256tFromSlice h.val with
    | none => Outcome.panics "Expected a valid sha256t tweak"
    | some v => tapTweakKey E k (some (beBytesToNat v))
  | none => tapTweakKey E k none

theorem tapTweakKey_even_y (E : CurveEngine)
    (hflip : ∀ s, 0 < s → s < secpOrder →
      E.hasOddY (secpOrder - s) = !E.hasOddY s)
    (k : PrivateKey) (root : Option Nat) (k2 : PrivateKey)
    (h : tapTweakKey E k root = Outcome.ok k2) :
    E.hasOddY k2.scalar = false := by
  unfold tapTweakKey at h
  by_cases h0 : (k.scalar + E.tapTweakHash (E.pubX k.scalar) root) % secpOrder = 0
  · simp [h0] at h
  · simp only [h0, if_neg, reduceIte] at h
    have hlt : (k.scalar + E.tapTweakHash (E.pubX k.scalar) root) % secpOrder
        < secpOrder :=
      Nat.mod_lt _ (by decide)
    have hpos : 0 < (k.scalar + E.tapTweakHash (E.pubX k.scalar) root)
        % secpOrder := Nat.pos_of_ne_zero h0
    have hsc := congrArg PrivateKey.scalar (Outcome.ok.inj h)
    simp only at hsc
    by_cases hodd : E.hasOddY
        ((k.scalar + E.tapTweakHash (E.pubX k.scalar) root) % secpOrder)
    · rw [← hsc, if_pos hodd, hflip _ hpos hlt, hodd]
      rfl
    · rw [← hsc, if_neg hodd]
      exact Bool.eq_false_iff.mpr hodd

/-- C5: whenever `tweak` succeeds, the derived public key of the result has
an even y-coordinate, whatever the parity of the pre-tweak key, provided
the engine satisfies the curve contract that negating a nonzero scalar
flips the parity of the point's y-coordinate. -/
theorem c5_tweak_even_y (E : CurveEngine)
    (hflip : ∀ s, 0 < s → s < secpOrder →
      E.hasOddY (secpOrder - s) = !E.hasOddY s)
    (k : PrivateKey) (root : Option H256) (k2 : PrivateKey)
    (h : tweak E k root = Outcome.ok k2) :
    (public E k2).2 = false := by
  unfold tweak at h
  match root with
  | some hh =>
    simp only at h
    match hfs : sha256tFromSlice hh.val with
    | none => rw [hfs] at h; exact absurd h (by simp)
    | some v =>
        rw [hfs] at h
        exact tapTweakKey_even_y E hflip k _ k2 h
  | none => exact tapTweakKey_even_y E hflip k none k2 h

/-- A concrete toy engine used only to instantiate theorems whose engine is
universally quantified: an odd toy parity together with arbitrary constant
hash and nonce values. -/
def toyEngine : CurveEngine :=
  ⟨fun s => decide (s % 2 = 1), id, fun _ _ => 1, fun _ _ => 1,
    fun _ _ _ => 1, fun _ _ _ => 1⟩

theorem secpOrder_odd : secpOrder % 2 = 1 := by decide

theorem toyEngine_flip : ∀ s, 0 < s → s < secpOrder →
    toyEngine.hasOddY (secpOrder - s) = !toyEngine.hasOddY s := by
  intro s hpos hlt
  have hodd := secpOrder_odd
  have : (secpOrder - s) % 2 = 1 - s % 2 := by omega
  simp only [toyEngine, this]
  have h2 : s % 2 = 0 ∨ s % 2 = 1 := Nat.mod_two_eq_zero_or_one s
  rcases h2 with h2 | h2 <;> rw [h2] <;> rfl

/-- Witness for C5: under the toy engine, tweaking the key of scalar `1`
with no node hash succeeds with scalar `2`, whose point has even y. -/
theorem c5_tweak_even_y_witness :
    tweak toyEngine ⟨1, false⟩ none = Outcome.ok ⟨2, false⟩ ∧
      (public toyEngine ⟨2, false⟩).2 = false :=
  ⟨by decide,
    c5_tweak_even_y toyEngine toyEngine_flip ⟨1, false⟩ none ⟨2, false⟩
      (by decide)⟩

/-- C6: a successful `tweak` carries the `no_aux_rand` configuration of the
original key over to the result unchanged. -/
theorem c6_tweak_preserves_aux_flag (E : CurveEngine) (k : PrivateKey)
    (root : Option H256) (k2 : PrivateKey)
    (h : tweak E k root = Outcome.ok k2) :
    k2.no_aux_rand = k.no_aux_rand := by
  unfold tweak at h
  have haux : ∀ r, tapTweakKey E k r = Outcome.ok k2 →
      k2.no_aux_rand = k.no_aux_rand := by
    intro r hr
    unfold tapTweakKey at hr
    by_cases h0 : (k.scalar + E.tapTweakHash (E.pubX k.scalar) r) % secpOrder = 0
    · simp [h0] at hr
    · simp only [h0, reduceIte] at hr
      have := congrArg PrivateKey.no_aux_rand (Outcome.ok.inj hr)
      simp only at this
      exact this.symm
  match root with
  | some hh =>
    simp only at h
    match hfs : sha256tFromSlice hh.val with
    | none => rw [hfs] at h; exact absurd h (by simp)
    | some v => rw [hfs] at h; exact haux _ h
  | none => exact haux none h

/-- Witness for C6: under the toy engine, tweaking the deterministic-mode
key of scalar `1` keeps the flag set. -/
theorem c6_tweak_preserves_aux_flag_witness :
    tweak toyEngine ⟨1, true⟩ none = Outcome.ok ⟨2, true⟩ ∧
      (PrivateKey.mk 2 true).no_aux_rand = (PrivateKey.mk 1 true).no_aux_rand :=
  ⟨by decide,
    c6_tweak_preserves_aux_flag toyEngine ⟨1, true⟩ none ⟨2, true⟩ (by decide)⟩

/-- Modelled from the spec: `secp256k1::Message::from_slice` (external),
which succeeds exactly on 32-byte slices. -/
def msgFromSlice (l : List Nat) : Option (List Nat) :=
  if l.length = 32 then some l else none

/-- `Signature::from_bytes` (external sibling type): accepts exactly the
64-byte `R.x ‖ s` encoding, otherwise fails with `InvalidSignature`. -/
def signatureFromBytes (l : List Nat) : Except KeyPairError (List Nat) :=
  if l.length = 64 then .ok l else .error .InvalidSignature

/-- Modelled from the spec (§4.3): the 64-byte `R.x ‖ s` encoding the
engine's Schnorr signing produces on a validated 32-byte message.  The
nonce comes from `(secret, message)` alone in deterministic mode and from
`(secret, message, aux)` otherwise, where `aux` is the fresh randomness the
randomized path would draw; the nonce is negated when `R.y` is odd. -/
def signCore (E : CurveEngine) (k : PrivateKey) (m : List Nat)
    (aux : List Nat) : List Nat :=
  let nonce0 := if k.no_aux_rand then E.nonceDet k.scalar m
    else E.nonceRand k.scalar m aux
  let nonce := if E.hasOddY nonce0 then secpOrder - nonce0 else nonce0
  let e := E.challenge (E.pubX nonce) (E.pubX k.scalar) m % secpOrder
  let s := (nonce + e * k.scalar) % secpOrder
  natToBeBytes 32 (E.pubX nonce) ++ natToBeBytes 32 s

/-- Lift the typed `Result` of `Signature::from_bytes` into an `Outcome`
(`?` propagation at source line 82). -/
def exceptToOutcome : Except KeyPairError (List Nat) → Outcome (List Nat)
  | .ok a => Outcome.ok a
  | .error e => Outcome.err e

/-- `SigningKeyTrait::sign` over a raw byte slice (source lines 68–83,
engine part modelled from the spec §4.3): run the digest through
`Message::from_slice` — whose failure would hit the bare `expect("")` —
sign through the engine, and encode the 64 signature bytes through
`Signature::from_bytes`. -/
def signRaw (E : CurveEngine) (k : PrivateKey) (msg : List Nat)
    (aux : List Nat) : Outcome (List Nat) :=
  match msgFromSlice msg with
  | none => Outcome.panics ""
  | some m => exceptToOutcome (signatureFromBytes (signCore E k m aux))

/-- `SigningKeyTrait::sign` at its declared type: the digest is an `H256`,
exactly 32 bytes. -/
def sign (E : CurveEngine) (k : PrivateKey) (m : H256) (aux : List Nat) :
    Outcome (List Nat) :=
  signRaw E k m.val aux

/-- C8: in deterministic mode (`no_aux_rand` set), the signature does not
depend on the auxiliary randomness: two calls on the same key and digest
agree byte for byte. -/
theorem c8_deterministic_sign (E : CurveEngine) (k : PrivateKey) (m : H256)
    (aux1 aux2 : List Nat) (hdet : k.no_aux_rand = true) :
    sign E k m aux1 = sign E k m aux2 := by
  unfold sign signRaw signCore
  rw [hdet]
  simp only [reduceIte]

/-- Witness for C8: the toy engine signs the all-zero digest identically
under two different auxiliary randomness values. -/
theorem c8_deterministic_sign_witness :
    (PrivateKey.mk 1 true).no_aux_rand = true ∧
      sign toyEngine ⟨1, true⟩ ⟨List.replicate 32 0, by decide⟩ [0] =
        sign toyEngine ⟨1, true⟩ ⟨List.replicate 32 0, by decide⟩ [1] :=
  ⟨rfl,
    c8_deterministic_sign toyEngine ⟨1, true⟩
      ⟨List.replicate 32 0, by decide⟩ [0] [1] rfl⟩

/-- C4 (code bug per the spec): on a malformed 31-byte digest the signing
body does not return the typed `InvalidMessage` error the spec requires; it
aborts the process through `Message::from_slice(..).expect("")` (and the
declared `H256` digest type offers no typed-error path at all). -/
theorem c4_sign_malformed_digest_panics :
    signRaw toyEngine ⟨1, false⟩ (List.replicate 31 0) [] =
      Outcome.panics "" ∧
      ∀ e : KeyPairError,
        signRaw toyEngine ⟨1, false⟩ (List.replicate 31 0) [] ≠
          Outcome.err e := by
  constructor
  · rfl
  · intro e h
    rw [show signRaw toyEngine ⟨1, false⟩ (List.replicate 31 0) [] =
        Outcome.panics "" from rfl] at h
    exact absurd h (by simp)

/-- Value of one hexadecimal digit, `none` on any other character. -/
def hexDigitVal (c : Char) : Option Nat :=
  if c.val ≥ 48 ∧ c.val ≤ 57 then some (c.val.toNat - 48)
  else if c.val ≥ 97 ∧ c.val ≤ 102 then some (c.val.toNat - 87)
  else if c.val ≥ 65 ∧ c.val ≤ 70 then some (c.val.toNat - 55)
  else none

/-- Modelled from the spec: `tw_encoding::hex::decode` (not part of the
source fragment) — an even-length string of hexadecimal digits decodes
pairwise to bytes, anything else fails. -/
def hexDecode : List Char → Option (List Nat)
  | [] => some []
  | [_] => none
  | c1 :: c2 :: rest =>
    match hexDigitVal c1, hexDigitVal c2, hexDecode rest with
    | some hi, some lo, some t => some ((hi * 16 + lo) :: t)
    | _, _, _ => none

/-- `TryFrom<&str> for PrivateKey` (source lines 92–99): hex-decode, map a
decoding failure to `InvalidPublicKey`, then defer to the byte parser. -/
def tryFromStr (s : List Char) : Except KeyPairError PrivateKey :=
  match hexDecode s with
  | none => .error .InvalidPublicKey
  | some b => tryFromBytes b

/-- C3: parsing a hex string that decodes to bytes `b` agrees with parsing
`b` directly, and a hex-decoding failure surfaces as an error kind distinct
from `InvalidSecretKey` (namely the public-key kind `InvalidPublicKey`). -/
theorem c3_hex_parse (s : List Char) :
    (∀ b, hexDecode s = some b → tryFromStr s = tryFromBytes b) ∧
      (hexDecode s = none →
        tryFromStr s = .error KeyPairError.InvalidPublicKey ∧
          KeyPairError.InvalidPublicKey ≠ KeyPairError.InvalidSecretKey) := by
  constructor
  · intro b hb
    unfold tryFromStr
    rw [hb]
  · intro hn
    refine ⟨?_, by simp⟩
    unfold tryFromStr
    rw [hn]

/-- Witness for C3: the string `"01"` decodes to `[1]` and parses exactly as
the byte slice `[1]` does, and the non-hex string `"zz"` fails with
`InvalidPublicKey`. -/
theorem c3_hex_parse_witness :
    tryFromStr [Char.ofNat 48, Char.ofNat 49] = tryFromBytes [1] ∧
      tryFromStr [Char.ofNat 122, Char.ofNat 122] =
        .error KeyPairError.InvalidPublicKey :=
  ⟨(c3_hex_parse [Char.ofNat 48, Char.ofNat 49]).1 [1] (by decide),
    ((c3_hex_parse [Char.ofNat 122, Char.ofNat 122]).2 (by decide)).1⟩

/-- `Zeroize for PrivateKey` (source lines 52–56), with the engine's
`KeyPair::non_secure_erase` modelled from the spec: the scalar's backing
memory is overwritten with zero bytes; the configuration flag is not part
of the keypair and is untouched. -/
def zeroize (k : PrivateKey) : PrivateKey :=
  ⟨0, k.no_aux_rand⟩

theorem natToBeBytes_zero (w : Nat) :
    natToBeBytes w 0 = List.replicate w 0 := by
  induction w with
  | zero => rfl
  | succ w ih =>
      rw [natToBeBytes, Nat.zero_div, Nat.zero_mod, ih]
      rw [List.replicate_succ' w 0]

/-- C9: after `zeroize` runs, the scalar's backing memory holds all-zero
bytes — exporting the secret bytes of the zeroized key yields exactly 32
zero bytes. -/
theorem c9_zeroize_export_zeros (k : PrivateKey) :
    to_zeroizing_vec (zeroize k) = List.replicate 32 0 := by
  unfold to_zeroizing_vec zeroize
  exact natToBeBytes_zero 32

/-- Witness for C9 at the key of scalar `5`. -/
theorem c9_zeroize_export_zeros_witness :
    to_zeroizing_vec (zeroize ⟨5, false⟩) = List.replicate 32 0 :=
  c9_zeroize_export_zeros ⟨5, false⟩

/-- A toy engine whose tweak hash is the public x-coordinate itself, used to
exercise the tweak chain on concrete scalars. -/
def chainEngine : CurveEngine :=
  ⟨fun s => decide (s % 2 = 1), id, fun x _ => x, fun _ _ => 1,
    fun _ _ _ => 1, fun _ _ _ => 1⟩

/-- Counterexample to C7 as stated: tweaking the key of scalar `1` once
with no node hash gives the key of scalar `2`, but tweaking the result
again gives the key of scalar `4` — the second call derives a fresh offset
from the once-tweaked key, so `k.tweak(None).tweak(None)` is not
`k.tweak(None)`. -/
theorem c7_counterexample :
    (match tweak chainEngine ⟨1, false⟩ none with
      | Outcome.ok k1 => tweak chainEngine k1 none
      | x => x) ≠ tweak chainEngine ⟨1, false⟩ none := by
  decide

/-- C7 amended: a second `tweak` with no node hash does not re-apply (or
double-apply) the first offset; it adds exactly one fresh offset derived
from the once-tweaked key's public x-coordinate, up to the even-y
normalization, and carries the configuration through. -/
theorem c7_double_tweak_fresh_offset (E : CurveEngine) (k k1 k2 : PrivateKey)
    (h1 : tweak E k none = Outcome.ok k1)
    (h2 : tweak E k1 none = Outcome.ok k2) :
    (k1.scalar + E.tapTweakHash (E.pubX k1.scalar) none) % secpOrder ≠ 0 ∧
      (k2.scalar =
          (k1.scalar + E.tapTweakHash (E.pubX k1.scalar) none) % secpOrder ∨
        k2.scalar = secpOrder -
          (k1.scalar + E.tapTweakHash (E.pubX k1.scalar) none) % secpOrder) ∧
      k2.no_aux_rand = k.no_aux_rand := by
  have haux1 : k1.no_aux_rand = k.no_aux_rand := by
    unfold tweak tapTweakKey at h1
    by_cases h0 : (k.scalar + E.tapTweakHash (E.pubX k.scalar) none)
        % secpOrder = 0
    · simp [h0] at h1
    · simp only [h0, reduceIte] at h1
      have := congrArg PrivateKey.no_aux_rand (Outcome.ok.inj h1)
      simp only at this
      exact this.symm
  unfold tweak tapTweakKey at h2
  by_cases h0 : (k1.scalar + E.tapTweakHash (E.pubX k1.scalar) none)
      % secpOrder = 0
  · simp [h0] at h2
  · simp only [h0, reduceIte] at h2
    have hsc := congrArg PrivateKey.scalar (Outcome.ok.inj h2)
    have hfl := congrArg PrivateKey.no_aux_rand (Outcome.ok.inj h2)
    simp only at hsc hfl
    refine ⟨h0, ?_, by rw [← hfl, haux1]⟩
    by_cases hodd : E.hasOddY
        ((k1.scalar + E.tapTweakHash (E.pubX k1.scalar) none) % secpOrder)
    · right
      rw [← hsc, if_pos hodd]
    · left
      rw [← hsc, if_neg hodd]

/-- Witness for the amended C7 on the chain engine: scalar `1` tweaks to
`2`, whose second tweak adds the fresh offset `2` giving `4`. -/
theorem c7_double_tweak_fresh_offset_witness :
    ((PrivateKey.mk 2 false).scalar +
        chainEngine.tapTweakHash
          (chainEngine.pubX (PrivateKey.mk 2 false).scalar) none)
        % secpOrder ≠ 0 ∧
      ((PrivateKey.mk 4 false).scalar =
          ((PrivateKey.mk 2 false).scalar +
            chainEngine.tapTweakHash
              (chainEngine.pubX (PrivateKey.mk 2 false).scalar) none)
            % secpOrder ∨
        (PrivateKey.mk 4 false).scalar = secpOrder -
          ((PrivateKey.mk 2 false).scalar +
            chainEngine.tapTweakHash
              (chainEngine.pubX (PrivateKey.mk 2 false).scalar) none)
            % secpOrder) ∧
      (PrivateKey.mk 4 false).no_aux_rand =
        (PrivateKey.mk 1 false).no_aux_rand :=
  c7_double_tweak_fresh_offset chainEngine ⟨1, false⟩ ⟨2, false⟩ ⟨4, false⟩
    (by decide) (by decide)

/-- A toy engine whose tweak hash is `n - 1`, driving the key of scalar `1`
into the degenerate tweak result `0`. -/
def degEngine : CurveEngine :=
  ⟨fun s => decide (s % 2 = 1), id, fun _ _ => secpOrder - 1, fun _ _ => 1,
    fun _ _ _ => 1, fun _ _ _ => 1⟩

/-- Counterexample to C10 as stated: `tweak` can abort on a well-typed
input — when the tweaked scalar is `0 mod n` the engine's
`expect("Tap tweak failed")` fires — so it is not true that tweak can never
panic; only the two in-file `from_slice` expects are unreachable. -/
theorem c10_counterexample :
    tweak degEngine ⟨1, false⟩ none = Outcome.panics "Tap tweak failed" := by
  decide

theorem tapTweakKey_not_slice_panic (E : CurveEngine) (k : PrivateKey)
    (r : Option Nat) :
    tapTweakKey E k r ≠ Outcome.panics "Expected a valid sha256t tweak" := by
  intro h
  unfold tapTweakKey at h
  by_cases h0 : (k.scalar + E.tapTweakHash (E.pubX k.scalar) r) % secpOrder = 0
  · simp only [h0, reduceIte] at h
    exact absurd (Outcome.panics.inj h) (by decide)
  · simp only [h0, reduceIte] at h
    exact Outcome.noConfusion h

theorem signRaw_eq_ok (E : CurveEngine) (k : PrivateKey) (msg : List Nat)
    (aux : List Nat) (h32 : msg.length = 32) :
    signRaw E k msg aux =
      exceptToOutcome (signatureFromBytes (signCore E k msg aux)) := by
  have hm : msgFromSlice msg = some msg := by
    unfold msgFromSlice
    rw [if_pos h32]
  unfold signRaw
  rw [hm]

theorem signCore_length (E : CurveEngine) (k : PrivateKey) (m : List Nat)
    (aux : List Nat) : (signCore E k m aux).length = 64 := by
  simp [signCore, natToBeBytes_length]

theorem sign_never_panics (E : CurveEngine) (k : PrivateKey) (m : H256)
    (aux : List Nat) (s : String) : sign E k m aux ≠ Outcome.panics s := by
  unfold sign
  rw [signRaw_eq_ok E k m.val aux m.property.1]
  rw [show signatureFromBytes (signCore E k m.val aux) =
      .ok (signCore E k m.val aux) from by
    unfold signatureFromBytes
    rw [if_pos (signCore_length E k m.val aux)]]
  intro h
  exact Outcome.noConfusion h

/-- C10 amended: the two in-file `expect` branches are unreachable for
well-typed inputs — `sha256t::Hash::from_slice` on a 32-byte `H256` always
succeeds, so `tweak` never panics with the
`"Expected a valid sha256t tweak"` message, and `Message::from_slice` on an
`H256` digest always succeeds, so `sign` never panics at all; `tweak` keeps
the engine's separate abort on a degenerate (zero) tweaked scalar. -/
theorem c10_expect_branches_unreachable (E : CurveEngine) (k : PrivateKey)
    (root : Option H256) (m : H256) (aux : List Nat) :
    tweak E k root ≠ Outcome.panics "Expected a valid sha256t tweak" ∧
      ∀ s : String, sign E k m aux ≠ Outcome.panics s := by
  constructor
  · match root with
    | none => exact tapTweakKey_not_slice_panic E k none
    | some hh =>
      intro h
      unfold tweak at h
      simp only at h
      match hfs : sha256tFromSlice hh.val with
      | none =>
          have hsome : sha256tFromSlice hh.val = some hh.val := by
            unfold sha256tFromSlice
            rw [if_pos hh.property.1]
          rw [hsome] at hfs
          exact Option.noConfusion hfs
      | some v =>
          rw [hfs] at h
          exact tapTweakKey_not_slice_panic E k (some (beBytesToNat v)) h
  · exact fun s => sign_never_panics E k m aux s

/-- Witness for the amended C10 on the toy engine, the key of scalar `1`,
no node hash, and the all-zero digest. -/
theorem c10_expect_branches_unreachable_witness :
    tweak toyEngine ⟨1, false⟩ none ≠
        Outcome.panics "Expected a valid sha256t tweak" ∧
      ∀ s : String,
        sign toyEngine ⟨1, false⟩ ⟨List.replicate 32 0, by decide⟩ [] ≠
          Outcome.panics s :=
  c10_expect_branches_unreachable toyEngine ⟨1, false⟩ none
    ⟨List.replicate 32 0, by decide⟩ []

end Schnorr
